import Mathlib

/-!
Shallow embedding of the apex-doc-parser repository (src/patterns.py,
src/apex_parser.py, src/processor.py, src/simpleChunker.py) for checking
the specification claims.  Text is modelled as `List Char`; Python regular
expressions used by the source are embedded as specialised scanning
functions with Python `re` semantics (leftmost match, greedy/lazy
quantifier resolution, `^`/`$` with and without MULTILINE, `.` with and
without DOTALL).  All scanning functions are structurally recursive
(fuel-indexed where the recursion is not structural on the text) so that
every definition is executable by `decide`/`rfl`.
-/

namespace S2P

/-- Python `\s` for ASCII text: space, tab, newline, carriage return,
vertical tab, form feed. -/
def isWS (c : Char) : Bool :=
  c == ' ' || c == '\t' || c == '\n' || c == '\r' || c == '\x0b' || c == '\x0c'

/-- `[A-Z]` -/
def isUpperCh (c : Char) : Bool := 'A' ≤ c && c ≤ 'Z'

/-- `[a-z]` -/
def isLowerCh (c : Char) : Bool := 'a' ≤ c && c ≤ 'z'

/-- `[a-zA-Z]` -/
def isAlphaCh (c : Char) : Bool := isUpperCh c || isLowerCh c

/-- `[0-9]` -/
def isDigitCh (c : Char) : Bool := '0' ≤ c && c ≤ '9'

/-- Python `\w` for ASCII text. -/
def isWordCh (c : Char) : Bool := isAlphaCh c || isDigitCh c || c == '_'

/-- Length of the maximal prefix of `l` whose characters satisfy `p`
(the extent of a greedy `p*` at the current position). -/
def countWhile (p : Char → Bool) : List Char → Nat
  | [] => 0
  | c :: rest => if p c then countWhile p rest + 1 else 0

/-- `startsWithL pre l` iff `pre` is a literal prefix of `l`. -/
def startsWithL : List Char → List Char → Bool
  | [], _ => true
  | _ :: _, [] => false
  | p :: ps, c :: cs => p == c && startsWithL ps cs

/-- Index of the last occurrence of `c` in `l`, if any. -/
def lastIdxOf (c : Char) : List Char → Option Nat
  | [] => none
  | a :: rest =>
    match lastIdxOf c rest with
    | some j => some (j + 1)
    | none => if a == c then some 0 else none

/-- The `\s+WORD\s*$` tail of the heading pattern
`([A-Z][a-zA-Z]+)\s+WORD\s*$`, matched against the suffix just past the
captured identifier; returns the length it consumes.  `ml` selects
MULTILINE semantics for `$` (before any `\n`, or at the end) versus
plain semantics (at the end of the string only, or before a final
newline — which is unreachable here because the character ending the
whitespace run is never itself a newline).  Quantifier resolution is
deterministic for this pattern (each greedy run is followed by a
disjoint character class), except for the trailing `\s*$` where greedy
backtracking stops at the last newline inside the whitespace run. -/
def matchHeadingTail (word : List Char) (ml : Bool) (l1 : List Char) : Option Nat :=
  let w := countWhile isWS l1
  if decide (1 ≤ w) then
    let l2 := l1.drop w
    if startsWithL word l2 then
      let l3 := l2.drop word.length
      let t := countWhile isWS l3
      if l3.drop t == [] then some (w + word.length + t)
      else if ml then
        match lastIdxOf '\n' (l3.take t) with
        | some j => some (w + word.length + j)
        | none => none
      else none
    else none
  else none

def matchHeading (word : List Char) (ml : Bool) (l : List Char) : Option (List Char × Nat) :=
  match l with
  | [] => none
  | c :: _ =>
    let a := countWhile isAlphaCh l
    if isUpperCh c && decide (2 ≤ a) then
      match matchHeadingTail word ml (l.drop a) with
      | some tailLen => some (l.take a, a + tailLen)
      | none => none
    else none

/-- One line-anchored heading match: start offset, captured identifier,
and the offset just past the match (Python `match.start()`, `group(1)`,
`match.end()`). -/
structure HMatch where
  start : Nat
  capture : List Char
  stop : Nat
deriving DecidableEq, Repr

/-- Generic MULTILINE `finditer` for a `^`-anchored single-capture
pattern: scan every position left to right, matching only where `^`
holds (offset 0 or just after a newline), and resume after the end of
each (non-empty) match, exactly as Python `re.finditer` with
`re.MULTILINE` does. -/
def finditerCapGo (matcher : List Char → Option (List Char × Nat)) :
    Nat → Nat → Bool → List Char → List HMatch
  | 0, _, _, _ => []
  | fuel + 1, off, anch, l =>
    match l with
    | [] => []
    | c :: rest =>
      if anch then
        match matcher l with
        | some (cap, len) =>
          ⟨off, cap, off + len⟩ ::
            finditerCapGo matcher fuel (off + len) (l.getD (len - 1) 'x' == '\n') (l.drop len)
        | none => finditerCapGo matcher fuel (off + 1) (c == '\n') rest
      else finditerCapGo matcher fuel (off + 1) (c == '\n') rest

/-- All matches of `^([A-Z][a-zA-Z]+)\s+WORD\s*$` in `cs` under
`re.MULTILINE` (the `finditer` calls of `ContentExtractor`). -/
def finditerHeading (word : List Char) (cs : List Char) : List HMatch :=
  finditerCapGo (matchHeading word true) (cs.length + 1) 0 true cs

/-- `re.search` of the same pattern compiled WITHOUT `re.MULTILINE`
against a slice: `^` then only matches at position 0 of the slice, so
the search succeeds only if the pattern matches at the very start.
Returns `match.start()` (necessarily 0) when it does.  This is the inner
next-sibling search of `extract_namespaces` / `extract_classes` /
`extract_dml_operations` in src/patterns.py. -/
def searchHeadingNoML (word : List Char) (l : List Char) : Option Nat :=
  match matchHeading word false l with
  | some _ => some 0
  | none => none

/-- The boundary computation shared by `extract_namespaces`
(src/patterns.py lines 104–118), `extract_classes` (lines 151–164) and
`extract_dml_operations` (lines 66–80): for every MULTILINE match of the
heading pattern, `end_pos` is `next_match.start() + start_pos` where
`next_match = re.search(PATTERN, text[start_pos + 1:])` (no MULTILINE),
and `len(text)` when that search fails. -/
def sectionBoundaries (word : List Char) (cs : List Char) : List (Nat × List Char × Nat) :=
  (finditerHeading word cs).map fun m =>
    let end_pos :=
      match searchHeadingNoML word (cs.drop (m.start + 1)) with
      | some j => j + m.start
      | none => cs.length
    (m.start, m.capture, end_pos)

/-- `PDFPatterns.SECTION_MARKERS` (src/patterns.py lines 32–37). -/
def PDFPatterns.SECTION_MARKERS : List String :=
  ["IN THIS SECTION:", "SEE ALSO:", "Usage", "Example"]

/-- Worker for the first substitution of `clean_description`:
`re.sub(r'IN THIS SECTION:|SEE ALSO:', '', text)` — a single
left-to-right pass removing non-overlapping leftmost occurrences of the
two literals. -/
def removeMarkersF : Nat → List Char → List Char
  | 0, l => l
  | _ + 1, [] => []
  | fuel + 1, c :: rest =>
    if startsWithL "IN THIS SECTION:".toList (c :: rest) then
      removeMarkersF fuel ((c :: rest).drop 16)
    else if startsWithL "SEE ALSO:".toList (c :: rest) then
      removeMarkersF fuel ((c :: rest).drop 9)
    else c :: removeMarkersF fuel rest

def removeMarkers (l : List Char) : List Char := removeMarkersF (l.length + 1) l

/-- Recognize a bracketed page marker `PRE<digits>]` at the start of `l`
(`PRE` is `[PAGE_` or `[/PAGE_`): returns the numeric value and the
total matched length.  `\d+` is greedy and must be followed by `]`. -/
def bracketMark (pre : List Char) (l : List Char) : Option (Nat × Nat) :=
  if startsWithL pre l then
    let rest := l.drop pre.length
    let d := countWhile isDigitCh rest
    if decide (1 ≤ d) && (rest.getD d 'x' == ']') then
      some ((rest.take d).foldl (fun n c => n * 10 + (c.toNat - 48)) 0, pre.length + d + 1)
    else none
  else none

/-- Worker for the second substitution of `clean_description`:
`re.sub(r'\[PAGE_\d+\]', '', text)`. -/
def removePageF : Nat → List Char → List Char
  | 0, l => l
  | _ + 1, [] => []
  | fuel + 1, c :: rest =>
    match bracketMark "[PAGE_".toList (c :: rest) with
    | some (_, n) => removePageF fuel ((c :: rest).drop n)
    | none => c :: removePageF fuel rest

def removePage (l : List Char) : List Char := removePageF (l.length + 1) l

/-- `re.sub(r'\s+', ' ', text)`: every maximal whitespace run becomes a
single space.  `prevWs` records whether the previous character belonged
to a run already replaced. -/
def collapseWS : Bool → List Char → List Char
  | _, [] => []
  | prevWs, c :: rest =>
    if isWS c then
      if prevWs then collapseWS true rest
      else ' ' :: collapseWS true rest
    else c :: collapseWS false rest

/-- Python `str.strip()`, leading side. -/
def stripLead (l : List Char) : List Char := l.dropWhile isWS

/-- Python `str.strip()`, trailing side: pending whitespace is flushed
only when a later non-whitespace character arrives. -/
def stripTrailAux : List Char → List Char → List Char
  | _, [] => []
  | pend, c :: rest =>
    if isWS c then stripTrailAux (pend ++ [c]) rest
    else pend ++ c :: stripTrailAux [] rest

/-- Python `str.strip()` for ASCII text. -/
def stripL (l : List Char) : List Char := stripTrailAux [] (stripLead l)

/-- `ContentExtractor.clean_description` (src/patterns.py lines 51–58):
remove the two section labels, remove `[PAGE_n]` markers, collapse
whitespace runs to one space, then strip. -/
def ContentExtractor.clean_descriptionL (l : List Char) : List Char :=
  stripL (collapseWS false (removePage (removeMarkers l)))

def ContentExtractor.clean_description (s : String) : String :=
  String.mk (ContentExtractor.clean_descriptionL s.toList)

/-- Page range of a section (`{'start': ..., 'end': ...}` in the source;
the `end` key is called `stop` here because `end` is a Lean keyword). -/
structure PageRange where
  start : Nat
  stop : Nat
deriving DecidableEq, Repr

/-- Leftmost `[PAGE_(\d+)]` in the content (the `start` search of
`find_page_range`). -/
def findOpenMark : Nat → List Char → Option Nat
  | 0, _ => none
  | fuel + 1, l =>
    match bracketMark "[PAGE_".toList l with
    | some (v, _) => some v
    | none =>
      match l with
      | [] => none
      | _ :: t => findOpenMark fuel t

/-- The negative lookahead `(?!.*\[/PAGE_\d+\])` of the `end` search:
without DOTALL, `.*` stays on the current line, so this asks whether
another close marker starts later on the same line. -/
def hasCloseMarkSameLine : Nat → List Char → Bool
  | 0, _ => false
  | fuel + 1, l =>
    match l with
    | [] => false
    | c :: t =>
      if (bracketMark "[/PAGE_".toList l).isSome then true
      else if c == '\n' then false
      else hasCloseMarkSameLine fuel t

/-- `re.search(r'\[/PAGE_(\d+)\](?!.*\[/PAGE_\d+\])', content)`:
leftmost close marker that is not followed, on the same line, by a
further close marker. -/
def findCloseMark : Nat → List Char → Option Nat
  | 0, _ => none
  | fuel + 1, l =>
    match l with
    | [] => none
    | _ :: t =>
      match bracketMark "[/PAGE_".toList l with
      | some (v, len) =>
        if hasCloseMarkSameLine (l.length + 1) (l.drop len) then findCloseMark fuel t
        else some v
      | none => findCloseMark fuel t

/-- `ContentExtractor.find_page_range` (src/patterns.py lines 136–144).
Absent markers yield the 0 sentinel on their side. -/
def ContentExtractor.find_page_rangeL (content : List Char) : PageRange :=
  { start := (findOpenMark (content.length + 1) content).getD 0,
    stop := (findCloseMark (content.length + 1) content).getD 0 }

def ContentExtractor.find_page_range (content : String) : PageRange :=
  ContentExtractor.find_page_rangeL content.toList

/-- Index of the first `)` on the current line (Python `.` does not
cross newlines), for the lazy group of `re.search(r'\((.*?)\)', sig)`. -/
def firstCloseParen : List Char → Option Nat
  | [] => none
  | c :: rest =>
    if c == ')' then some 0
    else if c == '\n' then none
    else (firstCloseParen rest).map (· + 1)

/-- `re.search(r'\((.*?)\)', signature)`: leftmost `(` that has a `)`
later on the same line; the captured group runs to the first such `)`. -/
def paramSearch : List Char → Option (List Char)
  | [] => none
  | c :: rest =>
    if c == '(' then
      match firstCloseParen rest with
      | some j => some (rest.take j)
      | none => paramSearch rest
    else paramSearch rest

/-- Python `str.split(',')`. -/
def splitComma : List Char → List (List Char)
  | [] => [[]]
  | c :: rest =>
    if c == ',' then [] :: splitComma rest
    else
      match splitComma rest with
      | [] => [[c]]
      | h :: t => (c :: h) :: t

/-- `ContentExtractor.extract_parameters` (src/patterns.py lines
225–233): take the lazily captured text inside the first parentheses;
if its strip is truthy, split on every comma and strip the pieces. -/
def ContentExtractor.extract_parametersL (signature : List Char) : List (List Char) :=
  match paramSearch signature with
  | none => []
  | some p => if stripL p == [] then [] else (splitComma p).map stripL

def ContentExtractor.extract_parameters (signature : String) : List String :=
  (ContentExtractor.extract_parametersL signature.toList).map String.mk

/-- The word `Namespace` of `PDFPatterns.NAMESPACE_START`. -/
def nsWord : List Char := "Namespace".toList

/-- The word `Class` of `PDFPatterns.CLASS_START`. -/
def classWord : List Char := "Class".toList

/-- The word `Statement` of `PDFPatterns.DML_OPERATION['start']`. -/
def stmtWord : List Char := "Statement".toList

/-- Index (relative to the suffix `l`, offset by the starting index `i`)
of the first position — including the empty suffix at the end — whose
suffix satisfies `p`.  Used for lazy `(.*?)(?=...)` groups and for
substring searches. -/
def scanFirstIdx (p : List Char → Bool) : Nat → Nat → List Char → Option Nat
  | 0, _, _ => none
  | fuel + 1, i, l =>
    if p l then some i
    else
      match l with
      | [] => none
      | _ :: t => scanFirstIdx p fuel (i + 1) t

/-- Last position in the next `n` positions (starting at index `i`)
whose suffix satisfies `p`. -/
def scanLastIdxBelow (p : List Char → Bool) : Nat → Nat → List Char → Option Nat
  | 0, _, _ => none
  | n + 1, i, l =>
    let later :=
      match l with
      | [] => none
      | _ :: t => scanLastIdxBelow p n (i + 1) t
    match later with
    | some j => some j
    | none => if p l then some i else none

/-- Indices of the characters of `l` satisfying `p`, ascending, starting
at index `i`. -/
def idxsWhere (p : Char → Bool) : Nat → List Char → List Nat
  | _, [] => []
  | i, c :: t => if p c then i :: idxsWhere p (i + 1) t else idxsWhere p (i + 1) t

/-- Python `str.split(sep)` for a one-character separator. -/
def splitOn (sep : Char) : List Char → List (List Char)
  | [] => [[]]
  | c :: rest =>
    if c == sep then [] :: splitOn sep rest
    else
      match splitOn sep rest with
      | [] => [[c]]
      | h :: t => (c :: h) :: t

/-- `re.search` of `(?<=BEHIND)(.*?)(?=LOOK)` with DOTALL: leftmost
position whose preceding characters are the fixed-width lookbehind
`behind`, whose lazy group extends to the first later position where
`look` holds.  The rolling window `win` holds the last
`behind.length` characters, most recent first.  Embeds
`PDFPatterns.NAMESPACE_DESC` and `DML_OPERATION['description']`. -/
def lookbehindLazyGo (behindRev : List Char) (look : List Char → Bool) :
    Nat → List Char → List Char → Option (List Char)
  | 0, _, _ => none
  | fuel + 1, win, l =>
    let found : Option (List Char) :=
      if win == behindRev then
        match scanFirstIdx look (l.length + 1) 0 l with
        | some r => some (l.take r)
        | none => none
      else none
    match found with
    | some g => some g
    | none =>
      match l with
      | [] => none
      | c :: t => lookbehindLazyGo behindRev look fuel ((c :: win).take behindRev.length) t

def lookbehindLazySearch (behind : List Char) (look : List Char → Bool)
    (l : List Char) : Option (List Char) :=
  lookbehindLazyGo behind.reverse look (l.length + 1) [] l

/-- Lookahead of `PDFPatterns.NAMESPACE_DESC`: `(?=\n\n|\n[A-Z])`. -/
def nsDescLook (l : List Char) : Bool :=
  match l with
  | '\n' :: d :: _ => d == '\n' || isUpperCh d
  | _ => false

/-- `re.search(PDFPatterns.NAMESPACE_DESC, section_content, re.DOTALL)`. -/
def nsDescSearch (l : List Char) : Option (List Char) :=
  lookbehindLazySearch "Namespace\n".toList nsDescLook l

/-- Lookahead of `PDFPatterns.CLASS_DESC`:
`(?=\n(?:IN THIS SECTION:|SEE ALSO:|public|private|protected))`. -/
def classDescLook (l : List Char) : Bool :=
  match l with
  | '\n' :: t =>
    startsWithL "IN THIS SECTION:".toList t || startsWithL "SEE ALSO:".toList t ||
      startsWithL "public".toList t || startsWithL "private".toList t ||
      startsWithL "protected".toList t
  | _ => false

/-- `re.search(PDFPatterns.CLASS_DESC, class_content, re.DOTALL)` where
`CLASS_DESC = r'Class\s+(.*?)(?=\n(?:IN THIS SECTION:|...))'`.  At a
`Class` occurrence, `\s+` first takes the whole whitespace run `w`; the
lazy group stops at the first lookahead position at or after it.  If no
lookahead position lies there, backtracking shortens `\s+`, which can
only succeed when some lookahead position falls strictly inside the run,
giving an empty group; otherwise the scan moves to the next `Class`. -/
def classDescGo : Nat → List Char → Option (List Char)
  | 0, _ => none
  | fuel + 1, l =>
    let found : Option (List Char) :=
      if startsWithL "Class".toList l then
        let rest := l.drop 5
        let w := countWhile isWS rest
        if decide (1 ≤ w) then
          match scanFirstIdx classDescLook (rest.length + 1) w (rest.drop w) with
          | some q => some ((rest.drop w).take (q - w))
          | none =>
            match scanLastIdxBelow classDescLook (w - 1) 1 (rest.drop 1) with
            | some _ => some []
            | none => none
        else none
      else none
    match found with
    | some g => some g
    | none =>
      match l with
      | [] => none
      | _ :: t => classDescGo fuel t

def classDescSearch (l : List Char) : Option (List Char) :=
  classDescGo (l.length + 1) l

/-- Match `PDFPatterns.METHOD_START =
r'^(?:public|private|protected)\s+\w+\s+\w+\s*\('` at the start of the
suffix `l` (the `^` anchor is the caller's).  Returns the match length.
Each greedy run is followed by a disjoint class, so resolution is
deterministic; the alternation is decided by the literal itself. -/
def matchMethodStart (l : List Char) : Option Nat :=
  let tryKw : List Char → Option Nat := fun kw =>
    if startsWithL kw l then
      let r0 := l.drop kw.length
      let w1 := countWhile isWS r0
      if decide (1 ≤ w1) then
        let r1 := r0.drop w1
        let a1 := countWhile isWordCh r1
        if decide (1 ≤ a1) then
          let r2 := r1.drop a1
          let w2 := countWhile isWS r2
          if decide (1 ≤ w2) then
            let r3 := r2.drop w2
            let a2 := countWhile isWordCh r3
            if decide (1 ≤ a2) then
              let r4 := r3.drop a2
              let w3 := countWhile isWS r4
              if r4.getD w3 'x' == '(' then
                some (kw.length + w1 + a1 + w2 + a2 + w3 + 1)
              else none
            else none
          else none
        else none
      else none
    else none
  match tryKw "public".toList with
  | some n => some n
  | none =>
    match tryKw "private".toList with
    | some n => some n
    | none => tryKw "protected".toList

/-- Generic MULTILINE `finditer` over a matcher that reports only the
match length: start/stop offset pairs of the non-overlapping matches. -/
def finditerGo (matcher : List Char → Option Nat) : Nat → Nat → Bool → List Char → List (Nat × Nat)
  | 0, _, _, _ => []
  | fuel + 1, off, anch, l =>
    match l with
    | [] => []
    | c :: rest =>
      if anch then
        match matcher l with
        | some len =>
          (off, off + len) ::
            finditerGo matcher fuel (off + len) (l.getD (len - 1) 'x' == '\n') (l.drop len)
        | none => finditerGo matcher fuel (off + 1) (c == '\n') rest
      else finditerGo matcher fuel (off + 1) (c == '\n') rest

/-- `re.finditer(METHOD_START, text, re.MULTILINE)`. -/
def finditerMethodStart (cs : List Char) : List (Nat × Nat) :=
  finditerGo matchMethodStart (cs.length + 1) 0 true cs

/-- Lookahead of `PDFPatterns.METHOD_DESC`:
`(?=\n(?:Example|Usage|SEE ALSO))`. -/
def mdLook (l : List Char) : Bool :=
  match l with
  | '\n' :: t =>
    startsWithL "Example".toList t || startsWithL "Usage".toList t ||
      startsWithL "SEE ALSO".toList t
  | _ => false

/-- `re.search(PDFPatterns.METHOD_DESC, method_content, re.DOTALL)`
where `METHOD_DESC = r'(?:Signature\n.*?\nReturn Value\nType:.*?\n)`
`(.*?)(?=\n(?:Example|Usage|SEE ALSO))'`.  Every lazy group is resolved
to its first stop; failure of a later part cannot be repaired by
extending an earlier lazy group (the failure conditions are monotone in
the position), so the cascade of first-occurrence searches is exact. -/
def methodDescSearch (content : List Char) : Option (List Char) :=
  match scanFirstIdx (startsWithL "Signature\n".toList) (content.length + 1) 0 content with
  | none => none
  | some p =>
    let r1 := content.drop (p + 10)
    match scanFirstIdx (startsWithL "\nReturn Value\nType:".toList) (r1.length + 1) 0 r1 with
    | none => none
    | some q =>
      let r2 := r1.drop (q + 19)
      match scanFirstIdx (fun l => l.getD 0 'x' == '\n' && decide (l ≠ [])) (r2.length + 1) 0 r2 with
      | none => none
      | some r =>
        let g := r2.drop (r + 1)
        match scanFirstIdx mdLook (g.length + 1) 0 g with
        | none => none
        | some m => some (g.take m)

/-- `(?:\.\w+)*` after the first identifier of the return type:
greedy chain of `.`-separated word runs, returning the extra length. -/
def identChainLen : Nat → List Char → Nat
  | 0, _ => 0
  | fuel + 1, l =>
    match l with
    | '.' :: t =>
      let a := countWhile isWordCh t
      if decide (1 ≤ a) then 1 + a + identChainLen fuel (t.drop a) else 0
    | _ => 0

/-- After a `Type:` literal: `\s*(\w+(?:\.\w+)*)`. -/
def rtAfterType (l : List Char) : Option (List Char) :=
  let w := countWhile isWS l
  let r := l.drop w
  let a := countWhile isWordCh r
  if decide (1 ≤ a) then some (r.take (a + identChainLen (r.length + 1) (r.drop a)))
  else none

/-- Lazy `.*?Type:` continuation of the return-type search. -/
def scanTypeColon : Nat → List Char → Option (List Char)
  | 0, _ => none
  | fuel + 1, l =>
    let found : Option (List Char) :=
      if startsWithL "Type:".toList l then rtAfterType (l.drop 5) else none
    match found with
    | some g => some g
    | none =>
      match l with
      | [] => none
      | _ :: t => scanTypeColon fuel t

/-- `ContentExtractor.extract_return_type` (src/patterns.py lines
235–240): `re.search(r'Return.*?Type:\s*(\w+(?:\.\w+)*)', content,
re.DOTALL)`, empty string when it fails. -/
def returnTypeGo : Nat → List Char → Option (List Char)
  | 0, _ => none
  | fuel + 1, l =>
    let found : Option (List Char) :=
      if startsWithL "Return".toList l then
        scanTypeColon ((l.drop 6).length + 1) (l.drop 6)
      else none
    match found with
    | some g => some g
    | none =>
      match l with
      | [] => none
      | _ :: t => returnTypeGo fuel t

def ContentExtractor.extract_return_typeL (content : List Char) : List Char :=
  (returnTypeGo (content.length + 1) content).getD []

/-- `re.search(r'\w+\s*\(', signature_lines)` followed by
`match.group(0)[:-1].strip()` — the method-name extraction inside
`extract_methods`. -/
def methodNameGo : Nat → List Char → Option (List Char)
  | 0, _ => none
  | fuel + 1, l =>
    let found : Option (List Char) :=
      let a := countWhile isWordCh l
      if decide (1 ≤ a) then
        let r := l.drop a
        let w := countWhile isWS r
        if r.getD w 'x' == '(' then some (stripL (l.take (a + w))) else none
      else none
    match found with
    | some g => some g
    | none =>
      match l with
      | [] => none
      | _ :: t => methodNameGo fuel t

def methodNameSearch (l : List Char) : Option (List Char) :=
  methodNameGo (l.length + 1) l

/-- A method record of `ContentExtractor.extract_methods`. -/
structure MethodInfo where
  name : String
  signature : String
  description : String
  parameters : List String
  return_type : String
deriving DecidableEq, Repr

/-- `ContentExtractor.extract_methods` (src/patterns.py lines 179–223).
The next-sibling search `re.search(METHOD_START, text[start_pos + 1:])`
is again compiled without MULTILINE, so it can only match at position 0
of the slice. -/
def ContentExtractor.extract_methodsL (text : List Char) : List MethodInfo :=
  (finditerMethodStart text).map fun m =>
    let s := m.1
    let end_pos :=
      match matchMethodStart (text.drop (s + 1)) with
      | some _ => 0 + s
      | none => text.length
    let content := (text.drop s).take (end_pos - s)
    let sigLine := content.takeWhile (fun c => !(c == '\n'))
    { name :=
        match methodNameSearch sigLine with
        | some nm => String.mk nm
        | none => "",
      signature := String.mk (stripL sigLine),
      description :=
        match methodDescSearch content with
        | some g => ContentExtractor.clean_description (String.mk (stripL g))
        | none => "",
      parameters := (ContentExtractor.extract_parametersL sigLine).map String.mk,
      return_type := String.mk (ContentExtractor.extract_return_typeL content) }

/-- A class record of `ContentExtractor.extract_classes`. -/
structure ClassInfo where
  name : String
  description : String
  methods : List MethodInfo
deriving DecidableEq, Repr

/-- `ContentExtractor.extract_classes` (src/patterns.py lines 146–177). -/
def ContentExtractor.extract_classesL (text : List Char) : List ClassInfo :=
  (sectionBoundaries classWord text).map fun b =>
    let content := (text.drop b.1).take (b.2.2 - b.1)
    { name := String.mk b.2.1 ++ " Class",
      description :=
        match classDescSearch content with
        | some g => ContentExtractor.clean_description (String.mk (stripL g))
        | none => "",
      methods := ContentExtractor.extract_methodsL content }

def ContentExtractor.extract_classes (text : String) : List ClassInfo :=
  ContentExtractor.extract_classesL text.toList

/-- A namespace record of `ContentExtractor.extract_namespaces`. -/
structure NamespaceInfo where
  name : String
  description : String
  subsections : List ClassInfo
  pageRange : PageRange
deriving DecidableEq, Repr

/-- `ContentExtractor.extract_namespaces` (src/patterns.py lines
99–134). -/
def ContentExtractor.extract_namespacesL (text : List Char) : List NamespaceInfo :=
  (sectionBoundaries nsWord text).map fun b =>
    let content := (text.drop b.1).take (b.2.2 - b.1)
    { name := String.mk b.2.1,
      description :=
        match nsDescSearch content with
        | some g => ContentExtractor.clean_description (String.mk (stripL g))
        | none => "",
      subsections := ContentExtractor.extract_classesL content,
      pageRange := ContentExtractor.find_page_rangeL content }

def ContentExtractor.extract_namespaces (text : String) : List NamespaceInfo :=
  ContentExtractor.extract_namespacesL text.toList

/-- A statement record of `ContentExtractor.extract_dml_operations`
(`syntax` and `example` are Lean keywords/reserved tokens, hence
`syntaxLines` and `exampleText`). -/
structure DmlOperation where
  name : String
  description : String
  syntaxLines : List String
  exampleText : String
deriving DecidableEq, Repr

/-- Backtracking over `\s*\n` after a `Syntax`/`Example` literal: the
candidate consumed newlines, from the last newline of the whitespace run
downwards; the lazy group then stops at the first later position where
`look` holds. -/
def tryWordNlKs (look : List Char → Bool) (rest : List Char) : List Nat → Option (List Char)
  | [] => none
  | k :: ks =>
    let g := rest.drop (k + 1)
    match scanFirstIdx look (g.length + 1) 0 g with
    | some q => some (g.take q)
    | none => tryWordNlKs look rest ks

/-- `re.search(word + r'\s*\n(.*?)(?=LOOK)', content, re.DOTALL)` —
shape of `DML_OPERATION['syntax']` and `DML_OPERATION['example']`. -/
def wordNlLazyGo (word : List Char) (look : List Char → Bool) : Nat → List Char → Option (List Char)
  | 0, _ => none
  | fuel + 1, l =>
    let found : Option (List Char) :=
      if startsWithL word l then
        let rest := l.drop word.length
        let t := countWhile isWS rest
        tryWordNlKs look rest ((idxsWhere (fun c => c == '\n') 0 (rest.take t)).reverse)
      else none
    match found with
    | some g => some g
    | none =>
      match l with
      | [] => none
      | _ :: t => wordNlLazyGo word look fuel t

/-- Lookahead of `DML_OPERATION['example']`: `(?=\n\n(?:[A-Z]|\Z))`. -/
def exLook (l : List Char) : Bool :=
  match l with
  | '\n' :: '\n' :: t =>
    match t with
    | [] => true
    | d :: _ => isUpperCh d
  | _ => false

/-- `ContentExtractor.extract_dml_operations` (src/patterns.py lines
61–97).  Note: unlike the other extractors, the description is only
stripped, not passed through `clean_description`. -/
def ContentExtractor.extract_dml_operationsL (text : List Char) : List DmlOperation :=
  (sectionBoundaries stmtWord text).map fun b =>
    let content := (text.drop b.1).take (b.2.2 - b.1)
    { name := String.mk b.2.1 ++ " Statement",
      description :=
        match lookbehindLazySearch "Statement\n".toList (startsWithL "Syntax".toList) content with
        | some g => String.mk (stripL g)
        | none => "",
      syntaxLines :=
        match wordNlLazyGo "Syntax".toList (startsWithL "\n\n".toList) (content.length + 1) content with
        | some g => (((splitOn '\n' g).map stripL).filter (fun x => !(x == []))).map String.mk
        | none => [],
      exampleText :=
        match wordNlLazyGo "Example".toList exLook (content.length + 1) content with
        | some g => String.mk (stripL g)
        | none => "" }

def ContentExtractor.extract_dml_operations (text : String) : List DmlOperation :=
  ContentExtractor.extract_dml_operationsL text.toList

/-! ### src/apex_parser.py -/

/-- Match the body of `^(\w+)\s+WORD` (the patterns of
`ApexDocParser.extract_namespaces`; note: `\w` capture, no trailing
`$`) at the start of the suffix `l`. -/
def matchApHeading (word : List Char) (l : List Char) : Option (List Char × Nat) :=
  let a := countWhile isWordCh l
  if decide (1 ≤ a) then
    let l1 := l.drop a
    let w := countWhile isWS l1
    if decide (1 ≤ w) && startsWithL word (l1.drop w) then
      some (l.take a, a + w + word.length)
    else none
  else none

/-- `pattern.finditer(text, pos)` for the MULTILINE heading patterns of
`ApexDocParser`: scanning starts at `pos`, and the `^` anchor is judged
against the real string (position 0 or a preceding newline). -/
def apFinditer (word : List Char) (cs : List Char) (pos : Nat) : List HMatch :=
  finditerCapGo (matchApHeading word) (cs.length + 1) pos
    (pos == 0 || cs.getD (pos - 1) 'x' == '\n') (cs.drop pos)

/-- `ApexDocParser.extract_section_description` (src/apex_parser.py
lines 65–68): slice from `start_pos` to the first `\n\n` at or after it
(end of text if none), stripped. -/
def ApexDocParser.extract_section_descriptionL (text : List Char) (start_pos : Nat) : List Char :=
  match scanFirstIdx (startsWithL "\n\n".toList) ((text.drop start_pos).length + 1) 0
      (text.drop start_pos) with
  | some j => stripL ((text.drop start_pos).take j)
  | none => stripL (text.drop start_pos)

def ApexDocParser.extract_section_description (text : String) (start_pos : Nat) : String :=
  String.mk (ApexDocParser.extract_section_descriptionL text.toList start_pos)

/-- Match `^(public|private|protected)\s+\w+\s+\w+\(.*\)` (the method
pattern of `ApexDocParser`, compiled WITHOUT MULTILINE) at position 0,
returning the length of `group(0)`.  `.*` is greedy on the current line
and backtracks to the last `)` there. -/
def matchApMethod (l : List Char) : Option Nat :=
  let tryKw : List Char → Option Nat := fun kw =>
    if startsWithL kw l then
      let r0 := l.drop kw.length
      let w1 := countWhile isWS r0
      if decide (1 ≤ w1) then
        let r1 := r0.drop w1
        let a1 := countWhile isWordCh r1
        if decide (1 ≤ a1) then
          let r2 := r1.drop a1
          let w2 := countWhile isWS r2
          if decide (1 ≤ w2) then
            let r3 := r2.drop w2
            let a2 := countWhile isWordCh r3
            if decide (1 ≤ a2) && (r3.getD a2 'x' == '(') then
              let line := (r3.drop (a2 + 1)).takeWhile (fun c => !(c == '\n'))
              match lastIdxOf ')' line with
              | some j => some (kw.length + w1 + a1 + w2 + a2 + 1 + j + 1)
              | none => none
            else none
          else none
        else none
      else none
    else none
  match tryKw "public".toList with
  | some n => some n
  | none =>
    match tryKw "private".toList with
    | some n => some n
    | none => tryKw "protected".toList

/-- `method_pattern.finditer(text, pos)` in `ApexDocParser`: the pattern
is `^`-anchored and compiled without MULTILINE, so it can only ever
match at position 0 — with any `pos > 0` the iterator is empty. -/
def ApexDocParser.method_finditer (cs : List Char) (pos : Nat) : List (Nat × Nat) :=
  if pos == 0 then
    match matchApMethod cs with
    | some len => [(0, len)]
    | none => []
  else []

structure ApMethod where
  signature : String
  description : String
deriving DecidableEq, Repr

structure ApClass where
  name : String
  description : String
  methods : List ApMethod
deriving DecidableEq, Repr

structure ApNamespace where
  name : String
  description : String
  classes : List ApClass
deriving DecidableEq, Repr

structure ApDocument where
  title : String
  description : String
  namespaces : List ApNamespace
deriving DecidableEq, Repr

/-- The inner class loop of `ApexDocParser.extract_namespaces` (lines
40–59): every class match is appended, and the loop breaks AFTER the
append when a namespace heading exists anywhere at or after the class
match's end. -/
def ApexDocParser.buildClasses (text : List Char) : List HMatch → List ApClass
  | [] => []
  | m :: rest =>
    let cd : ApClass :=
      { name := String.mk m.capture,
        description := String.mk (ApexDocParser.extract_section_descriptionL text m.stop),
        methods := (ApexDocParser.method_finditer text m.stop).map fun me =>
          { signature := String.mk ((text.drop me.1).take (me.2 - me.1)),
            description := String.mk (ApexDocParser.extract_section_descriptionL text me.2) } }
    cd :: (if apFinditer nsWord text m.stop == [] then ApexDocParser.buildClasses text rest else [])

/-- `ApexDocParser.extract_namespaces` (src/apex_parser.py lines
25–63): the class scan for each namespace starts at the namespace
match's end and runs over the REST OF THE WHOLE DOCUMENT, tempered only
by the break heuristic of `buildClasses`. -/
def ApexDocParser.extract_namespacesL (text : List Char) : List ApNamespace :=
  (apFinditer nsWord text 0).map fun m =>
    { name := String.mk m.capture,
      description := String.mk (ApexDocParser.extract_section_descriptionL text m.stop),
      classes := ApexDocParser.buildClasses text (apFinditer classWord text m.stop) }

def ApexDocParser.extract_namespaces (text : String) : List ApNamespace :=
  ApexDocParser.extract_namespacesL text.toList

/-- `ApexDocParser.parse_document` (src/apex_parser.py lines 12–23). -/
def ApexDocParser.parse_document (text : String) : ApDocument :=
  { title := "Apex Reference Guide",
    description := "Extracted Apex content organized by namespaces.",
    namespaces := ApexDocParser.extract_namespacesL text.toList }

/-! ### src/processor.py -/

/-- `re.search(PDFPatterns.TITLE, text)` with
`TITLE = r'APEX\s+REFERENCE\s+GUIDE'`; returns `group(0)`. -/
def titleSearchGo : Nat → List Char → Option (List Char)
  | 0, _ => none
  | fuel + 1, l =>
    let found : Option (List Char) :=
      if startsWithL "APEX".toList l then
        let r0 := l.drop 4
        let w1 := countWhile isWS r0
        if decide (1 ≤ w1) && startsWithL "REFERENCE".toList (r0.drop w1) then
          let r1 := (r0.drop w1).drop 9
          let w2 := countWhile isWS r1
          if decide (1 ≤ w2) && startsWithL "GUIDE".toList (r1.drop w2) then
            some (l.take (4 + w1 + 9 + w2 + 5))
          else none
        else none
      else none
    match found with
    | some g => some g
    | none =>
      match l with
      | [] => none
      | _ :: t => titleSearchGo fuel t

def titleSearch (l : List Char) : Option (List Char) :=
  titleSearchGo (l.length + 1) l

/-- `re.search(PDFPatterns.MAIN_DESC, text, re.DOTALL)` with
`MAIN_DESC = r'Apex is a strongly typed.*?(?=\n\n)'`; returns
`group(0)`. -/
def mainDescGo : Nat → List Char → Option (List Char)
  | 0, _ => none
  | fuel + 1, l =>
    let found : Option (List Char) :=
      if startsWithL "Apex is a strongly typed".toList l then
        let g := l.drop 24
        match scanFirstIdx (startsWithL "\n\n".toList) (g.length + 1) 0 g with
        | some r => some (l.take (24 + r))
        | none => none
      else none
    match found with
    | some g => some g
    | none =>
      match l with
      | [] => none
      | _ :: t => mainDescGo fuel t

def mainDescSearch (l : List Char) : Option (List Char) :=
  mainDescGo (l.length + 1) l

/-- The JSON document built by `PDFDocProcessor.process_pdf`. -/
structure ProcDoc where
  title : String
  description : String
  totalPages : Nat
  note : String
  sections : List NamespaceInfo
  dmlOperations : List DmlOperation
deriving DecidableEq, Repr

/-- `PDFDocProcessor.process_pdf` (src/processor.py lines 42–76), as a
function of the extracted text (`extract_text_from_pdf` returns `None`
on failure) and of the page counter `current_page` left by extraction.
`if not text: return {}` — the empty dict is modelled as `none`. -/
def PDFDocProcessor.process_pdf (current_page : Nat) (text : Option String) : Option ProcDoc :=
  match text with
  | none => none
  | some t =>
    if t == "" then none
    else
      some
        { title := match titleSearch t.toList with | some g => String.mk g | none => "",
          description := match mainDescSearch t.toList with | some g => String.mk g | none => "",
          totalPages := current_page,
          note := "In API version 51.0 and earlier, Apex Reference information was included in the Apex Developer Guide",
          sections := ContentExtractor.extract_namespacesL t.toList,
          dmlOperations := ContentExtractor.extract_dml_operationsL t.toList }

/-! ### src/simpleChunker.py (method-signature branch, lines 67–96) -/

/-- The character class `[\w<>\[\]\s]` of the signature pattern's
return-type group. -/
def isG2 (c : Char) : Bool :=
  isWordCh c || c == '<' || c == '>' || c == '[' || c == ']' || isWS c

/-- A `{'type': ..., 'name': ...}` parameter of simpleChunker. -/
structure ScParameter where
  type : String
  name : String
deriving DecidableEq, Repr

/-- The `{'type': 'method', ...}` record of simpleChunker. -/
structure ScMethod where
  name : String
  signature : String
  parameters : List ScParameter
  return_type : String
deriving DecidableEq, Repr

/-- Try to finish `re.match(r'(public|global|static)\s+([\w<>\[\]\s]+)`
`\s+(\w+)\s*\((.*)\)', paragraph)` with the return-type group ending at
absolute position `e`: `\s+`, `(\w+)`, `\s*`, `(`, greedy `.*` on the
line backtracking to its last `)`.  Returns (group2, group3, group4).
Group 2 takes the largest split of the whitespace between keyword and
group against the backtracked `\s+`. -/
def scCheckAtE (l : List Char) (base w1 e : Nat) : Option (List Char × List Char × List Char) :=
  let u := countWhile isWS (l.drop e)
  if decide (1 ≤ u) then
    let r1 := l.drop (e + u)
    let a := countWhile isWordCh r1
    if decide (1 ≤ a) then
      let r2 := r1.drop a
      let w := countWhile isWS r2
      if r2.getD w 'x' == '(' then
        let afterP := r2.drop (w + 1)
        let line := afterP.takeWhile (fun c => !(c == '\n'))
        match lastIdxOf ')' line with
        | some j =>
          let s := min w1 (e - base - 1)
          some ((l.drop (base + s)).take (e - base - s), r1.take a, afterP.take j)
        | none => none
      else none
    else none
  else none

/-- Backtracking loop over the end position `e` of the greedy group 2,
from its maximal extent downwards (regex semantics: longest group 2
first). -/
def scTryGo (l : List Char) (base w1 : Nat) : Nat → Nat → Option (List Char × List Char × List Char)
  | 0, _ => none
  | steps + 1, e =>
    match scCheckAtE l base w1 e with
    | some r => some r
    | none => scTryGo l base w1 steps (e - 1)

/-- `re.match` of the simpleChunker signature pattern at position 0. -/
def scMatch (l : List Char) : Option (List Char × List Char × List Char) :=
  let base : Option Nat :=
    if startsWithL "public".toList l then some 6
    else if startsWithL "global".toList l then some 6
    else if startsWithL "static".toList l then some 6
    else none
  match base with
  | none => none
  | some b =>
    let w1 := countWhile isWS (l.drop b)
    if decide (1 ≤ w1) then
      let emax := b + w1 + countWhile isG2 (l.drop (b + w1))
      if decide (b + 2 ≤ emax) then scTryGo l b w1 (emax - (b + 2) + 1) emax
      else none
    else none

/-- First character among `<>[]()` in `l`, if any: what the negative
lookahead `(?![^<>\[\]()]*[\])])` of the parameter-splitting regex
inspects. -/
def nextSpecialChar (l : List Char) : Option Char :=
  match l.dropWhile (fun c =>
      !(c == '<' || c == '>' || c == '[' || c == ']' || c == '(' || c == ')')) with
  | [] => none
  | c :: _ => some c

/-- The split decision of `re.split(r',\s*(?![^<>\[\]()]*[\])])', s)` at
a comma: split unless the next bracket character after it is `]` or
`)` (whitespace is not a bracket character, so the backtracking of
`\s*` cannot change the outcome). -/
def scSplitHere (rest : List Char) : Bool :=
  match nextSpecialChar rest with
  | some c => !(c == ']' || c == ')')
  | none => true

/-- `re.split(r',\s*(?![^<>\[\]()]*[\])])', parameters_str)`: each
splitting match consumes the comma and the following whitespace run. -/
def scSplitParams : Nat → List Char → List (List Char)
  | 0, l => [l]
  | _ + 1, [] => [[]]
  | fuel + 1, c :: rest =>
    if c == ',' && scSplitHere rest then
      let k := countWhile isWS rest
      [] :: scSplitParams fuel (rest.drop k)
    else
      match scSplitParams fuel rest with
      | [] => [[c]]
      | h :: t => (c :: h) :: t

/-- `' '.join(parts)`. -/
def joinSpaces : List (List Char) → List Char
  | [] => []
  | [x] => x
  | x :: xs => x ++ ' ' :: joinSpaces xs

/-- Occurrence test `sub in s`. -/
def containsSub (pat l : List Char) : Bool :=
  (scanFirstIdx (startsWithL pat) (l.length + 1) 0 l).isSome

/-- The method-signature branch of `extract_data` in
src/simpleChunker.py (lines 67–96): the guard
`'public ' in paragraph or 'global ' in paragraph or 'static ' in
paragraph`, the `re.match`, and the parameter tokenization
(`param.strip().split(' ')`; type = all words but the last, name = the
last).  `none` means the paragraph is not turned into a method record
(it falls through to a plain paragraph). -/
def simpleChunkerMethod (paragraph : String) : Option ScMethod :=
  let l := paragraph.toList
  if containsSub "public ".toList l || containsSub "global ".toList l ||
      containsSub "static ".toList l then
    match scMatch l with
    | some (g2, g3, g4) =>
      some
        { name := String.mk g3,
          signature := String.mk (stripL l),
          return_type := String.mk (stripL g2),
          parameters :=
            if g4 == [] then []
            else
              (scSplitParams (g4.length + 1) g4).map fun piece =>
                let parts := splitOn ' ' (stripL piece)
                { type := String.mk (joinSpaces parts.dropLast),
                  name := String.mk ((parts.getLast?).getD []) } }
    | none => none
  else none

/-! ### Specification-side predicates used in the claim statements -/

/-- No two consecutive whitespace characters. -/
def noDoubleWS : List Char → Bool
  | a :: b :: t => !(isWS a && isWS b) && noDoubleWS (b :: t)
  | _ => true

/-- Neither the first nor the last character is whitespace. -/
def noEdgeWS (l : List Char) : Bool :=
  (match l.head? with
   | some c => !isWS c
   | none => true) &&
    (match l.getLast? with
     | some c => !isWS c
     | none => true)

/-- Every whitespace character is a plain space. -/
def allWsSpace (l : List Char) : Bool := l.all (fun c => !isWS c || c == ' ')

/-- Whether `l` contains an occurrence of a token that
`clean_description` removes: one of the two literals or a `[PAGE_n]`
marker. -/
def hasRemovableToken (l : List Char) : Bool :=
  containsSub "IN THIS SECTION:".toList l || containsSub "SEE ALSO:".toList l ||
    (scanFirstIdx (fun m => (bracketMark "[PAGE_".toList m).isSome) (l.length + 1) 0 l).isSome

/-- Shape of an identifier captured by the heading patterns of
`PDFPatterns`: `[A-Z][a-zA-Z]+` — at least two characters, all
alphabetic, the first upper case. -/
def isCapIdent : List Char → Bool
  | [] => false
  | c :: rest => isUpperCh c && (c :: rest).all isAlphaCh && decide (2 ≤ (c :: rest).length)

/-- `startsWithL "\n\n"` at absolute offset `j` — a paragraph break. -/
def blankAt (text : List Char) (j : Nat) : Bool :=
  startsWithL "\n\n".toList (text.drop j)

/-! ### Helper lemmas -/

theorem scanFirstIdx_none_spec (pred : List Char → Bool) :
    ∀ (l : List Char) (fuel i : Nat), l.length + 1 ≤ fuel →
      scanFirstIdx pred fuel i l = none → ∀ k, k ≤ l.length → pred (l.drop k) = false := by
  intro l
  induction l with
  | nil =>
    intro fuel i hf h k hk
    obtain ⟨f, rfl⟩ : ∃ f, fuel = f + 1 := ⟨fuel - 1, by omega⟩
    obtain rfl : k = 0 := by simpa using hk
    simp only [scanFirstIdx] at h
    split at h
    · exact absurd h (by simp)
    · simpa using ‹¬ pred [] = true›
  | cons c t ih =>
    intro fuel i hf h k hk
    obtain ⟨f, rfl⟩ : ∃ f, fuel = f + 1 := ⟨fuel - 1, by omega⟩
    simp only [scanFirstIdx] at h
    split at h
    · exact absurd h (by simp)
    · cases k with
      | zero => simpa using ‹¬ pred (c :: t) = true›
      | succ k =>
        have ht : t.length + 1 ≤ f := by simp at hf; omega
        simpa [List.drop_succ_cons] using ih f (i + 1) ht h k (by simpa using hk)

theorem scanFirstIdx_some_spec (pred : List Char → Bool) :
    ∀ (l : List Char) (fuel i j : Nat), l.length + 1 ≤ fuel →
      scanFirstIdx pred fuel i l = some j →
      i ≤ j ∧ j - i ≤ l.length ∧ pred (l.drop (j - i)) = true ∧
        ∀ k, k < j - i → pred (l.drop k) = false := by
  intro l
  induction l with
  | nil =>
    intro fuel i j hf h
    obtain ⟨f, rfl⟩ : ∃ f, fuel = f + 1 := ⟨fuel - 1, by omega⟩
    simp only [scanFirstIdx] at h
    split at h
    · cases h
      exact ⟨Nat.le_refl _, by omega, by simpa using ‹pred [] = true›, by omega⟩
    · exact absurd h (by simp)
  | cons c t ih =>
    intro fuel i j hf h
    obtain ⟨f, rfl⟩ : ∃ f, fuel = f + 1 := ⟨fuel - 1, by omega⟩
    simp only [scanFirstIdx] at h
    split at h
    · cases h
      refine ⟨Nat.le_refl _, by omega, ?_, by omega⟩
      simpa using ‹pred (c :: t) = true›
    · have ht : t.length + 1 ≤ f := by simp at hf; omega
      obtain ⟨h1, h2, h3, h4⟩ := ih f (i + 1) j ht h
      refine ⟨by omega, by simp; omega, ?_, ?_⟩
      · have : j - i = (j - (i + 1)) + 1 := by omega
        rw [this, List.drop_succ_cons]
        exact h3
      · intro k hk
        cases k with
        | zero => simpa using ‹¬ pred (c :: t) = true›
        | succ k =>
          rw [List.drop_succ_cons]
          exact h4 k (by omega)

/-- A non-empty literal never starts an empty list. -/
theorem startsWithL_cons_nil (c : Char) (p : List Char) : startsWithL (c :: p) [] = false := rfl

theorem ndw_tail {a : Char} {l : List Char} (h : noDoubleWS (a :: l) = true) :
    noDoubleWS l = true := by
  cases l with
  | nil => rfl
  | cons b t =>
    unfold noDoubleWS at h
    exact (Bool.and_eq_true_iff.1 h).2

theorem ndw_cons {a : Char} {l : List Char}
    (h1 : ∀ c, l.head? = some c → (isWS a && isWS c) = false)
    (h2 : noDoubleWS l = true) : noDoubleWS (a :: l) = true := by
  cases l with
  | nil => rfl
  | cons b t =>
    unfold noDoubleWS
    rw [h1 b rfl, h2]
    rfl

theorem collapseWS_head_not_ws : ∀ (l : List Char) (c : Char),
    (collapseWS true l).head? = some c → isWS c = false := by
  intro l
  induction l with
  | nil => intro c h; simp [collapseWS] at h
  | cons a t ih =>
    intro c h
    by_cases ha : isWS a = true
    · rw [show collapseWS true (a :: t) = collapseWS true t by simp [collapseWS, ha]] at h
      exact ih c h
    · rw [show collapseWS true (a :: t) = a :: collapseWS false t by
          simp [collapseWS, ha]] at h
      simp only [List.head?_cons, Option.some.injEq] at h
      rw [← h]
      simpa using ha

theorem collapseWS_ndw : ∀ (l : List Char) (b : Bool), noDoubleWS (collapseWS b l) = true := by
  intro l
  induction l with
  | nil => intro b; rfl
  | cons a t ih =>
    intro b
    by_cases ha : isWS a = true
    · cases b with
      | true => rw [show collapseWS true (a :: t) = collapseWS true t by simp [collapseWS, ha]]
                exact ih true
      | false =>
        rw [show collapseWS false (a :: t) = ' ' :: collapseWS true t by simp [collapseWS, ha]]
        refine ndw_cons ?_ (ih true)
        intro c hc
        rw [collapseWS_head_not_ws t c hc]
        simp
    · rw [show collapseWS b (a :: t) = a :: collapseWS false t by simp [collapseWS, ha]]
      refine ndw_cons ?_ (ih false)
      intro c _
      simp [Bool.not_eq_true] at ha
      simp [ha]

theorem collapseWS_allWsSpace : ∀ (l : List Char) (b : Bool),
    allWsSpace (collapseWS b l) = true := by
  intro l
  induction l with
  | nil => intro b; rfl
  | cons a t ih =>
    intro b
    by_cases ha : isWS a = true
    · cases b with
      | true => rw [show collapseWS true (a :: t) = collapseWS true t by simp [collapseWS, ha]]
                exact ih true
      | false =>
        rw [show collapseWS false (a :: t) = ' ' :: collapseWS true t by simp [collapseWS, ha]]
        simpa [allWsSpace] using ih true
    · rw [show collapseWS b (a :: t) = a :: collapseWS false t by simp [collapseWS, ha]]
      have := ih false
      simp [Bool.not_eq_true] at ha
      simpa [allWsSpace, ha] using this

theorem ndw_dropWhile (p : Char → Bool) : ∀ l : List Char,
    noDoubleWS l = true → noDoubleWS (l.dropWhile p) = true := by
  intro l
  induction l with
  | nil => intro h; exact h
  | cons a t ih =>
    intro h
    by_cases ha : p a = true
    · rw [List.dropWhile_cons_of_pos ha]
      exact ih (ndw_tail h)
    · rw [List.dropWhile_cons_of_neg (by simpa using ha)]
      exact h

theorem allWsSpace_dropWhile (p : Char → Bool) : ∀ l : List Char,
    allWsSpace l = true → allWsSpace (l.dropWhile p) = true := by
  intro l
  induction l with
  | nil => intro h; exact h
  | cons a t ih =>
    intro h
    by_cases ha : p a = true
    · rw [List.dropWhile_cons_of_pos ha]
      refine ih ?_
      simp only [allWsSpace, List.all_cons, Bool.and_eq_true] at h
      exact h.2
    · rw [List.dropWhile_cons_of_neg (by simpa using ha)]
      exact h

theorem ndw_append_left : ∀ (x t : List Char), noDoubleWS (x ++ t) = true → noDoubleWS x = true := by
  intro x
  induction x with
  | nil => intro t _; rfl
  | cons a x' ih =>
    intro t h
    cases x' with
    | nil => rfl
    | cons b x'' =>
      unfold noDoubleWS at h ⊢
      obtain ⟨h1, h2⟩ := Bool.and_eq_true_iff.1 h
      rw [h1, ih t h2]
      rfl

theorem allWsSpace_append_left : ∀ (x t : List Char),
    allWsSpace (x ++ t) = true → allWsSpace x = true := by
  intro x t h
  simp only [allWsSpace, List.all_append, Bool.and_eq_true] at h
  exact h.1

theorem stripTrailAux_prefix : ∀ (l pend : List Char),
    ∃ t, pend ++ l = stripTrailAux pend l ++ t := by
  intro l
  induction l with
  | nil => intro pend; exact ⟨pend, by simp [stripTrailAux]⟩
  | cons c rest ih =>
    intro pend
    by_cases hc : isWS c = true
    · obtain ⟨t, ht⟩ := ih (pend ++ [c])
      refine ⟨t, ?_⟩
      rw [show stripTrailAux pend (c :: rest) = stripTrailAux (pend ++ [c]) rest by
            simp [stripTrailAux, hc]]
      rw [← ht]
      simp
    · obtain ⟨t, ht⟩ := ih []
      simp only [List.nil_append] at ht
      refine ⟨t, ?_⟩
      rw [show stripTrailAux pend (c :: rest) = pend ++ c :: stripTrailAux [] rest by
            simp [stripTrailAux, hc]]
      conv_lhs => rw [ht]
      simp

theorem dropWhile_head_not (p : Char → Bool) : ∀ (l : List Char) (c : Char),
    (l.dropWhile p).head? = some c → p c = false := by
  intro l
  induction l with
  | nil => intro c h; simp at h
  | cons a t ih =>
    intro c h
    by_cases ha : p a = true
    · rw [List.dropWhile_cons_of_pos ha] at h
      exact ih c h
    · rw [List.dropWhile_cons_of_neg (by simpa using ha)] at h
      simp only [List.head?_cons, Option.some.injEq] at h
      rw [← h]
      simpa using ha

theorem stripTrailAux_last : ∀ (l pend : List Char) (c : Char),
    (stripTrailAux pend l).getLast? = some c → isWS c = false := by
  intro l
  induction l with
  | nil => intro pend c h; simp [stripTrailAux] at h
  | cons a rest ih =>
    intro pend c h
    by_cases ha : isWS a = true
    · rw [show stripTrailAux pend (a :: rest) = stripTrailAux (pend ++ [a]) rest by
            simp [stripTrailAux, ha]] at h
      exact ih (pend ++ [a]) c h
    · rw [show stripTrailAux pend (a :: rest) = pend ++ a :: stripTrailAux [] rest by
            simp [stripTrailAux, ha]] at h
      rw [List.getLast?_append_cons] at h
      cases hr : stripTrailAux [] rest with
      | nil =>
        rw [hr] at h
        simp only [List.getLast?_singleton, Option.some.injEq] at h
        rw [← h]
        simpa using ha
      | cons d r =>
        rw [hr, List.getLast?_cons_cons] at h
        rw [← hr] at h
        exact ih [] c h

theorem stripL_head : ∀ (l : List Char) (c : Char),
    (stripL l).head? = some c → isWS c = false := by
  intro l c h
  unfold stripL stripLead at h
  cases hd : l.dropWhile isWS with
  | nil => rw [hd] at h; simp [stripTrailAux] at h
  | cons d r =>
    have hdws : isWS d = false := dropWhile_head_not isWS l d (by rw [hd]; rfl)
    rw [hd] at h
    rw [show stripTrailAux [] (d :: r) = [] ++ d :: stripTrailAux [] r by
          simp [stripTrailAux, hdws]] at h
    simp only [List.nil_append, List.head?_cons, Option.some.injEq] at h
    rw [← h]
    exact hdws

theorem stripL_last (l : List Char) (c : Char) (h : (stripL l).getLast? = some c) :
    isWS c = false :=
  stripTrailAux_last (stripLead l) [] c h

theorem stripL_ndw (l : List Char) (h : noDoubleWS l = true) : noDoubleWS (stripL l) = true := by
  obtain ⟨t, ht⟩ := stripTrailAux_prefix (stripLead l) []
  simp only [List.nil_append] at ht
  refine ndw_append_left _ t ?_
  unfold stripL
  rw [← ht]
  exact ndw_dropWhile isWS l h

theorem stripL_allWsSpace (l : List Char) (h : allWsSpace l = true) :
    allWsSpace (stripL l) = true := by
  obtain ⟨t, ht⟩ := stripTrailAux_prefix (stripLead l) []
  simp only [List.nil_append] at ht
  refine allWsSpace_append_left _ t ?_
  unfold stripL
  rw [← ht]
  exact allWsSpace_dropWhile isWS l h

theorem noEdgeWS_of (l : List Char) (hh : ∀ c, l.head? = some c → isWS c = false)
    (hl : ∀ c, l.getLast? = some c → isWS c = false) : noEdgeWS l = true := by
  unfold noEdgeWS
  cases h1 : l.head? with
  | none => cases h2 : l.getLast? with
    | none => rfl
    | some c => simp [hl c h2]
  | some c => cases h2 : l.getLast? with
    | none => simp [hh c h1]
    | some d => simp [hh c h1, hl d h2]

theorem clean_ndw (l : List Char) :
    noDoubleWS (ContentExtractor.clean_descriptionL l) = true :=
  stripL_ndw _ (collapseWS_ndw _ false)

theorem clean_allWsSpace (l : List Char) :
    allWsSpace (ContentExtractor.clean_descriptionL l) = true :=
  stripL_allWsSpace _ (collapseWS_allWsSpace _ false)

theorem clean_head (l : List Char) (c : Char)
    (h : (ContentExtractor.clean_descriptionL l).head? = some c) : isWS c = false :=
  stripL_head _ c h

theorem clean_last (l : List Char) (c : Char)
    (h : (ContentExtractor.clean_descriptionL l).getLast? = some c) : isWS c = false :=
  stripL_last _ c h

theorem removeMarkersF_id : ∀ (fuel : Nat) (l : List Char),
    (∀ k, startsWithL "IN THIS SECTION:".toList (l.drop k) = false) →
    (∀ k, startsWithL "SEE ALSO:".toList (l.drop k) = false) →
    removeMarkersF fuel l = l := by
  intro fuel
  induction fuel with
  | zero => intro l _ _; rfl
  | succ f ih =>
    intro l h1 h2
    cases l with
    | nil => rfl
    | cons c rest =>
      have hc1 := h1 0
      have hc2 := h2 0
      simp only [List.drop_zero] at hc1 hc2
      rw [show removeMarkersF (f + 1) (c :: rest) = c :: removeMarkersF f rest by
            conv_lhs => unfold removeMarkersF
            rw [if_neg (by rw [hc1]; simp), if_neg (by rw [hc2]; simp)]]
      rw [ih rest (fun k => by simpa using h1 (k + 1)) (fun k => by simpa using h2 (k + 1))]

theorem removePageF_id : ∀ (fuel : Nat) (l : List Char),
    (∀ k, (bracketMark "[PAGE_".toList (l.drop k)).isSome = false) →
    removePageF fuel l = l := by
  intro fuel
  induction fuel with
  | zero => intro l _; rfl
  | succ f ih =>
    intro l h
    cases l with
    | nil => rfl
    | cons c rest =>
      have hc := h 0
      simp only [List.drop_zero] at hc
      cases hmk : bracketMark "[PAGE_".toList (c :: rest) with
      | some v => rw [hmk] at hc; simp at hc
      | none =>
        rw [show removePageF (f + 1) (c :: rest) = c :: removePageF f rest by
              conv_lhs => unfold removePageF
              rw [hmk]]
        rw [ih rest (fun k => by simpa using h (k + 1))]

theorem collapse_id_pair : ∀ l : List Char, allWsSpace l = true → noDoubleWS l = true →
    (collapseWS false l = l ∧
      ((∀ c, l.head? = some c → isWS c = false) → collapseWS true l = l)) := by
  intro l
  induction l with
  | nil => intro _ _; exact ⟨rfl, fun _ => rfl⟩
  | cons a t ih =>
    intro hA hN
    have hAc : (!isWS a || a == ' ') = true := by
      simp only [allWsSpace, List.all_cons, Bool.and_eq_true] at hA
      exact hA.1
    have hAt : allWsSpace t = true := by
      simp only [allWsSpace, List.all_cons, Bool.and_eq_true] at hA
      exact hA.2
    obtain ⟨ih1, ih2⟩ := ih hAt (ndw_tail hN)
    refine ⟨?_, ?_⟩
    · by_cases ha : isWS a = true
      · have ha' : a = ' ' := by simpa [ha] using hAc
        have hhead : ∀ c, t.head? = some c → isWS c = false := by
          intro c hc
          cases t with
          | nil => simp at hc
          | cons b r =>
            simp only [List.head?_cons, Option.some.injEq] at hc
            subst hc
            unfold noDoubleWS at hN
            obtain ⟨hN1, _⟩ := Bool.and_eq_true_iff.1 hN
            simpa [ha] using hN1
        rw [show collapseWS false (a :: t) = ' ' :: collapseWS true t by simp [collapseWS, ha]]
        rw [ih2 hhead, ha']
      · rw [show collapseWS false (a :: t) = a :: collapseWS false t by simp [collapseWS, ha]]
        rw [ih1]
    · intro hHead
      have ha : isWS a = false := hHead a rfl
      rw [show collapseWS true (a :: t) = a :: collapseWS false t by simp [collapseWS, ha]]
      rw [ih1]

theorem stripTrailAux_id : ∀ (l pend : List Char), l ≠ [] →
    (∀ c, l.getLast? = some c → isWS c = false) → stripTrailAux pend l = pend ++ l := by
  intro l
  induction l with
  | nil => intro pend h _; exact absurd rfl h
  | cons a rest ih =>
    intro pend _ hlast
    cases rest with
    | nil =>
      have ha : isWS a = false := hlast a (by simp)
      simp [stripTrailAux, ha]
    | cons b r =>
      have hlast' : ∀ c, (b :: r).getLast? = some c → isWS c = false := by
        intro c hc
        exact hlast c (by rw [List.getLast?_cons_cons]; exact hc)
      by_cases ha : isWS a = true
      · rw [show stripTrailAux pend (a :: b :: r) = stripTrailAux (pend ++ [a]) (b :: r) by
              simp [stripTrailAux, ha]]
        rw [ih (pend ++ [a]) (by simp) hlast']
        simp
      · rw [show stripTrailAux pend (a :: b :: r) = pend ++ a :: stripTrailAux [] (b :: r) by
              simp [stripTrailAux, ha]]
        rw [ih [] (by simp) hlast']
        simp

theorem dropWhile_id_of_head (p : Char → Bool) (l : List Char)
    (h : ∀ c, l.head? = some c → p c = false) : l.dropWhile p = l := by
  cases l with
  | nil => rfl
  | cons a t => rw [List.dropWhile_cons_of_neg (by simp [h a rfl])]

theorem stripL_id_of_edges (m : List Char)
    (hh : ∀ c, m.head? = some c → isWS c = false)
    (hl : ∀ c, m.getLast? = some c → isWS c = false) : stripL m = m := by
  cases m with
  | nil => rfl
  | cons a t =>
    unfold stripL
    rw [show stripLead (a :: t) = a :: t from dropWhile_id_of_head isWS (a :: t) hh]
    rw [stripTrailAux_id (a :: t) [] (by simp) hl]
    simp

theorem not_containsSub_all (pat : List Char) (hne : pat ≠ []) (l : List Char)
    (h : containsSub pat l = false) : ∀ k, startsWithL pat (l.drop k) = false := by
  intro k
  by_cases hk : k ≤ l.length
  · unfold containsSub at h
    cases hs : scanFirstIdx (startsWithL pat) (l.length + 1) 0 l with
    | some j => rw [hs] at h; simp at h
    | none => exact scanFirstIdx_none_spec _ l _ 0 (Nat.le_refl _) hs k hk
  · rw [List.drop_of_length_le (by omega)]
    cases pat with
    | nil => exact absurd rfl hne
    | cons c p => rfl

theorem no_pageToken_all (l : List Char)
    (h : (scanFirstIdx (fun m => (bracketMark "[PAGE_".toList m).isSome)
        (l.length + 1) 0 l).isSome = false) :
    ∀ k, (bracketMark "[PAGE_".toList (l.drop k)).isSome = false := by
  intro k
  by_cases hk : k ≤ l.length
  · cases hs : scanFirstIdx (fun m => (bracketMark "[PAGE_".toList m).isSome)
        (l.length + 1) 0 l with
    | some j => rw [hs] at h; simp at h
    | none => exact scanFirstIdx_none_spec _ l _ 0 (Nat.le_refl _) hs k hk
  · rw [List.drop_of_length_le (by omega)]
    decide

/-- A list satisfying all the structural facts that hold of every
cleaner output, and containing none of the removable tokens, is a fixed
point of the cleaner. -/
theorem cleanL_fixed (m : List Char)
    (hall : allWsSpace m = true) (hndw : noDoubleWS m = true)
    (hh : ∀ c, m.head? = some c → isWS c = false)
    (hl : ∀ c, m.getLast? = some c → isWS c = false)
    (h1 : ∀ k, startsWithL "IN THIS SECTION:".toList (m.drop k) = false)
    (h2 : ∀ k, startsWithL "SEE ALSO:".toList (m.drop k) = false)
    (h3 : ∀ k, (bracketMark "[PAGE_".toList (m.drop k)).isSome = false) :
    ContentExtractor.clean_descriptionL m = m := by
  unfold ContentExtractor.clean_descriptionL removeMarkers removePage
  rw [removeMarkersF_id _ m h1 h2]
  rw [removePageF_id _ m h3]
  rw [(collapse_id_pair m hall hndw).1]
  exact stripL_id_of_edges m hh hl

theorem countWhile_le (p : Char → Bool) : ∀ l : List Char, countWhile p l ≤ l.length := by
  intro l
  induction l with
  | nil => simp [countWhile]
  | cons c t ih =>
    by_cases hc : p c = true
    · rw [show countWhile p (c :: t) = countWhile p t + 1 by simp [countWhile, hc]]
      simpa using ih
    · rw [show countWhile p (c :: t) = 0 by simp [countWhile, hc]]
      simp

theorem take_countWhile_all (p : Char → Bool) : ∀ l : List Char,
    (l.take (countWhile p l)).all p = true := by
  intro l
  induction l with
  | nil => rfl
  | cons c t ih =>
    by_cases hc : p c = true
    · rw [show countWhile p (c :: t) = countWhile p t + 1 by simp [countWhile, hc]]
      rw [List.take_succ_cons]
      simp [hc, ih]
    · rw [show countWhile p (c :: t) = 0 by simp [countWhile, hc]]
      rfl

theorem isCapIdent_take (c : Char) (rest : List Char)
    (h1 : isUpperCh c = true) (h2 : 2 ≤ countWhile isAlphaCh (c :: rest)) :
    isCapIdent ((c :: rest).take (countWhile isAlphaCh (c :: rest))) = true := by
  obtain ⟨a, ha⟩ : ∃ a, countWhile isAlphaCh (c :: rest) = a + 1 :=
    ⟨countWhile isAlphaCh (c :: rest) - 1, by omega⟩
  have hall := take_countWhile_all isAlphaCh (c :: rest)
  have hle := countWhile_le isAlphaCh (c :: rest)
  rw [ha] at hall hle h2 ⊢
  rw [List.take_succ_cons] at hall ⊢
  have hlen : (c :: rest.take a).length = a + 1 := by
    simp only [List.length_cons, List.length_take]
    have : a ≤ rest.length := by simpa using hle
    omega
  show (isUpperCh c && (c :: List.take a rest).all isAlphaCh &&
      decide (2 ≤ (c :: List.take a rest).length)) = true
  rw [hlen, hall, h1]
  simp only [Bool.true_and, Bool.and_eq_true, decide_eq_true_eq]
  exact h2

theorem matchHeading_cap (word : List Char) (ml : Bool) (l : List Char) (cap : List Char)
    (n : Nat) (h : matchHeading word ml l = some (cap, n)) : isCapIdent cap = true := by
  cases l with
  | nil => simp [matchHeading] at h
  | cons c rest =>
    simp only [matchHeading] at h
    split at h
    next hg =>
      split at h
      next tailLen heq =>
        rw [Option.some.injEq, Prod.mk.injEq] at h
        obtain ⟨hcap, -⟩ := h
        obtain ⟨hu, hge⟩ := Bool.and_eq_true_iff.1 hg
        rw [← hcap]
        exact isCapIdent_take c rest hu (of_decide_eq_true hge)
      next heq => exact absurd h (by simp)
    next hg => exact absurd h (by simp)

theorem finditerCapGo_mem (matcher : List Char → Option (List Char × Nat)) :
    ∀ (fuel off : Nat) (anch : Bool) (l : List Char) (m : HMatch),
      m ∈ finditerCapGo matcher fuel off anch l →
      ∃ suffix len, matcher suffix = some (m.capture, len) := by
  intro fuel
  induction fuel with
  | zero => intro off anch l m h; simp [finditerCapGo] at h
  | succ f ih =>
    intro off anch l m h
    cases l with
    | nil => simp [finditerCapGo] at h
    | cons c rest =>
      cases anch with
      | false =>
        rw [show finditerCapGo matcher (f + 1) off false (c :: rest) =
              finditerCapGo matcher f (off + 1) (c == '\n') rest by
            simp [finditerCapGo]] at h
        exact ih _ _ _ m h
      | true =>
        cases hm : matcher (c :: rest) with
        | none =>
          rw [show finditerCapGo matcher (f + 1) off true (c :: rest) =
                finditerCapGo matcher f (off + 1) (c == '\n') rest by
              simp [finditerCapGo, hm]] at h
          exact ih _ _ _ m h
        | some pr =>
          obtain ⟨cap, len⟩ := pr
          rw [show finditerCapGo matcher (f + 1) off true (c :: rest) =
                ⟨off, cap, off + len⟩ ::
                  finditerCapGo matcher f (off + len)
                    ((c :: rest).getD (len - 1) 'x' == '\n') ((c :: rest).drop len) by
              simp [finditerCapGo, hm]] at h
          rw [List.mem_cons] at h
          cases h with
          | inl he => exact ⟨c :: rest, len, by rw [hm, he]⟩
          | inr hr => exact ih _ _ _ m hr

theorem sectionBoundaries_cap (word cs : List Char) :
    ∀ b ∈ sectionBoundaries word cs, isCapIdent b.2.1 = true := by
  intro b hb
  unfold sectionBoundaries at hb
  obtain ⟨m, hm, rfl⟩ := List.mem_map.1 hb
  obtain ⟨suffix, len, hmatch⟩ :=
    finditerCapGo_mem (matchHeading word true) _ _ _ _ m hm
  exact matchHeading_cap word true suffix _ len hmatch

/-! ### Claim theorems -/

/-- C1: the claim says that for each heading match the span end offset
is the offset of the next match of the same pattern (text length if none
remains), giving contiguous non-overlapping spans.  The code computes
the next match with `re.search(PATTERN, text[start_pos + 1:])` WITHOUT
`re.MULTILINE`, so the `^...$` pattern never matches inside the slice
and `end_pos` falls back to `len(text)` for every heading.  On two
concatenated namespace sections (text length 39, second heading at
offset 20) both spans end at 39: the first span is `[0, 39)`, not the
claimed `[0, 20)`, and the spans overlap instead of being contiguous
and non-overlapping. -/
theorem c1_spans_run_to_text_end :
    sectionBoundaries nsWord "Foo Namespace\nbodyA\nBar Namespace\nbodyB".toList =
        [(0, "Foo".toList, 39), (20, "Bar".toList, 39)] ∧
      "Foo Namespace\nbodyA\nBar Namespace\nbodyB".toList.length = 39 := by
  constructor
  · decide
  · decide

/-- C2: the claim says a class heading lying textually after the second
namespace's heading never appears among the children of the first
namespace.  In `ApexDocParser.extract_namespaces` the class scan for a
namespace starts at the namespace heading's end and runs over the rest
of the whole document, so the class `Ccc` — whose heading starts at
offset 30, after the second namespace heading at offset 15 — is
recorded as a child of the first namespace `Aaa`. -/
theorem c2_class_after_next_namespace_misattributed :
    ApexDocParser.extract_namespaces "Aaa Namespace\n\nBbb Namespace\n\nCcc Class\nx\n" =
        [⟨"Aaa", "", [⟨"Ccc", "x", []⟩]⟩, ⟨"Bbb", "", [⟨"Ccc", "x", []⟩]⟩] ∧
      apFinditer nsWord "Aaa Namespace\n\nBbb Namespace\n\nCcc Class\nx\n".toList 0 =
        [⟨0, "Aaa".toList, 13⟩, ⟨15, "Bbb".toList, 28⟩] ∧
      apFinditer classWord "Aaa Namespace\n\nBbb Namespace\n\nCcc Class\nx\n".toList 13 =
        [⟨30, "Ccc".toList, 39⟩] := by
  refine ⟨?_, ?_, ?_⟩
  · decide
  · decide
  · decide

/-- C3: the claim says the parameter substring is split only at commas
at bracket depth zero (single counter over parentheses, angle and
square brackets), and that `parse_signature` on the given line yields
typed parameters and the generic return type.  `extract_parameters`
in src/patterns.py splits at EVERY comma (`param_str.split(',')`), so a
comma nested in `Map<Id, String>` does split the list; and on the
claim's own example line the simpleChunker signature `re.match` fails
outright (its return-type character class cannot cross the nested
comma), while `extract_parameters` yields flat token strings, not
type/name pairs. -/
theorem c3_split_ignores_bracket_depth :
    ContentExtractor.extract_parameters "foo(Map<Id, String> m)" = ["Map<Id", "String> m"] ∧
      simpleChunkerMethod "public List<Map<Id, String>> getThing(Integer i, String s)" = none ∧
      ContentExtractor.extract_parameters
          "public List<Map<Id, String>> getThing(Integer i, String s)" =
        ["Integer i", "String s"] := by
  refine ⟨?_, ?_, ?_⟩
  · decide
  · decide
  · decide

/-- C4: the claim says the extracted page-range end is the page number
of the LAST page-close marker in the span.  The `end` search's negative
lookahead `(?!.*\[/PAGE_\d+\])` is compiled without DOTALL, so `.*`
cannot cross a newline: the search accepts the first close marker whose
line has no later close marker.  With one marker per line (exactly how
`extract_text_from_pdf` injects them) this is the FIRST close marker:
on `[/PAGE_1]\n[/PAGE_2]` the code yields end = 1 where the claim
requires 2.  The claim's own single-line examples do hold. -/
theorem c4_page_range_end_not_last_marker :
    ContentExtractor.find_page_range "[/PAGE_1]\n[/PAGE_2]" = ⟨0, 1⟩ ∧
      ContentExtractor.find_page_range "[PAGE_3]...[/PAGE_3]...[PAGE_3]...[/PAGE_3]" = ⟨3, 3⟩ ∧
      ContentExtractor.find_page_range "no markers" = ⟨0, 0⟩ := by
  refine ⟨?_, ?_, ?_⟩
  · decide
  · decide
  · decide

/-- C5 counterexample: the claim says the description ends at the first
paragraph break OR recognized section-marker keyword, whichever comes
first.  Here the marker `IN THIS SECTION:` (a recognized section
marker) occurs immediately after the heading, before the blank line, so
under the claim the description would be empty; the code only searches
for `"\n\n"` and returns the text up to the blank line, marker
included. -/
theorem c5_counterexample :
    ApexDocParser.extract_section_description "X Namespace\nIN THIS SECTION: blah\n\nrest" 11 =
        "IN THIS SECTION: blah" ∧
      ¬ ApexDocParser.extract_section_description "X Namespace\nIN THIS SECTION: blah\n\nrest" 11 =
          "" ∧
      "IN THIS SECTION:" ∈ PDFPatterns.SECTION_MARKERS := by
  refine ⟨by decide, by decide, by decide⟩

/-- C5 amended: the description returned by
`extract_section_description` is the trimmed slice from the given start
position to the first paragraph break (`\n\n`) at or after it — or to
the end of the text when no paragraph break remains.  Section-marker
keywords play no role.  `e` is the length of the untrimmed slice. -/
theorem c5_first_blank_line (text : List Char) (p : Nat) :
    ∃ e, ApexDocParser.extract_section_descriptionL text p = stripL ((text.drop p).take e) ∧
      ((blankAt text (p + e) = true ∧ ∀ k, k < e → blankAt text (p + k) = false) ∨
        ((text.drop p).length ≤ e ∧ ∀ k, blankAt text (p + k) = false)) := by
  unfold ApexDocParser.extract_section_descriptionL
  have hdd : ∀ k, text.drop (p + k) = (text.drop p).drop k := by
    intro k
    rw [List.drop_drop, Nat.add_comm]
  cases h : scanFirstIdx (startsWithL "\n\n".toList) ((text.drop p).length + 1) 0 (text.drop p) with
  | some j =>
    obtain ⟨_, h2, h3, h4⟩ :=
      scanFirstIdx_some_spec (startsWithL "\n\n".toList) (text.drop p) _ 0 j (Nat.le_refl _) h
    refine ⟨j, by simp [h], Or.inl ⟨?_, ?_⟩⟩
    · unfold blankAt
      rw [hdd j]
      simpa using h3
    · intro k hk
      unfold blankAt
      rw [hdd k]
      exact h4 k (by omega)
  | none =>
    refine ⟨(text.drop p).length, by rw [List.take_length], Or.inr ⟨Nat.le_refl _, ?_⟩⟩
    intro k
    unfold blankAt
    rw [hdd k]
    by_cases hk : k ≤ (text.drop p).length
    · exact scanFirstIdx_none_spec (startsWithL "\n\n".toList) (text.drop p) _ 0 (Nat.le_refl _) h k hk
    · rw [List.drop_of_length_le (by omega)]
      rfl

/-- C6 counterexample: the claim says the cleaner's output never
contains any token of the marker vocabulary, including `Usage` and
`Example`.  `clean_description` only removes `IN THIS SECTION:`,
`SEE ALSO:` and page markers, so the marker `Usage` passes through
unchanged and occurs in the output. -/
theorem c6_counterexample :
    ContentExtractor.clean_description "Usage" = "Usage" ∧
      "Usage" ∈ PDFPatterns.SECTION_MARKERS ∧
      containsSub "Usage".toList (ContentExtractor.clean_description "Usage").toList = true := by
  refine ⟨by decide, by decide, by decide⟩

/-- C6 amended: for every input string, the cleaner's output has no two
consecutive whitespace characters and no leading or trailing
whitespace.  (The marker-vocabulary part of the claim fails, see the
counterexample.) -/
theorem c6_whitespace_normalized (s : String) :
    noDoubleWS (ContentExtractor.clean_description s).toList = true ∧
      noEdgeWS (ContentExtractor.clean_description s).toList = true := by
  have htl : (ContentExtractor.clean_description s).toList =
      ContentExtractor.clean_descriptionL s.toList := rfl
  rw [htl]
  exact ⟨clean_ndw _, noEdgeWS_of _ (clean_head _) (clean_last _)⟩

/-- C7 counterexample: the claim says `clean` is idempotent for every
input.  On `"IN  THIS SECTION:"` (two spaces) the first pass removes
nothing but collapses the whitespace, creating a fresh
`IN THIS SECTION:` occurrence that the second pass then removes:
`clean (clean x) = "" ≠ "IN THIS SECTION:" = clean x`. -/
theorem c7_counterexample :
    ContentExtractor.clean_description (ContentExtractor.clean_description "IN  THIS SECTION:") ≠
      ContentExtractor.clean_description "IN  THIS SECTION:" := by
  decide

/-- C7 amended: the cleaner is idempotent on every input `x` such that
`clean x` contains no occurrence of the removed tokens
(`IN THIS SECTION:`, `SEE ALSO:`, `[PAGE_n]`).  In general idempotence
fails because whitespace collapsing or removal splicing can create a
fresh removable token (see the counterexample). -/
theorem c7_idempotent_without_tokens (s : String)
    (h : hasRemovableToken (ContentExtractor.clean_description s).toList = false) :
    ContentExtractor.clean_description (ContentExtractor.clean_description s) =
      ContentExtractor.clean_description s := by
  have htl : (ContentExtractor.clean_description s).toList =
      ContentExtractor.clean_descriptionL s.toList := rfl
  rw [htl] at h
  unfold hasRemovableToken at h
  have ha := Bool.or_eq_false_iff.mp h
  have hb := Bool.or_eq_false_iff.mp ha.1
  have hfix := cleanL_fixed (ContentExtractor.clean_descriptionL s.toList)
    (clean_allWsSpace _) (clean_ndw _) (clean_head _) (clean_last _)
    (not_containsSub_all _ (by decide) _ hb.1)
    (not_containsSub_all _ (by decide) _ hb.2)
    (no_pageToken_all _ ha.2)
  show String.mk (ContentExtractor.clean_descriptionL
      (ContentExtractor.clean_descriptionL s.toList)) =
    String.mk (ContentExtractor.clean_descriptionL s.toList)
  rw [hfix]

/-- C7 witness: `"a  b"` cleans to `"a b"`, which contains no removable
token, and cleaning is idempotent there. -/
theorem c7_idempotent_witness :
    hasRemovableToken (ContentExtractor.clean_description "a  b").toList = false ∧
      ContentExtractor.clean_description (ContentExtractor.clean_description "a  b") =
        ContentExtractor.clean_description "a  b" :=
  ⟨by decide, c7_idempotent_without_tokens "a  b" (by decide)⟩

/-- C8 counterexample: the claim says the pipeline yields an EMPTY
document (empty title, empty description, empty collections) for empty
input.  `ApexDocParser.parse_document` returns hard-coded non-empty
title and description even for empty text. -/
theorem c8_counterexample :
    (ApexDocParser.parse_document "").title = "Apex Reference Guide" ∧
      ¬ (ApexDocParser.parse_document "").title = "" := by
  refine ⟨by decide, by decide⟩

/-- C8 amended: for unreadable input (`None` from text extraction) or
empty input text, `process_pdf` returns the empty dict (modelled
`none`) without error, and `parse_document` returns a document whose
namespace list is empty but whose title and description are the fixed
non-empty strings. -/
theorem c8_empty_input_behavior :
    ∀ current_page : Nat,
      PDFDocProcessor.process_pdf current_page none = none ∧
        PDFDocProcessor.process_pdf current_page (some "") = none ∧
        ApexDocParser.parse_document "" =
          ⟨"Apex Reference Guide", "Extracted Apex content organized by namespaces.", []⟩ := by
  intro current_page
  refine ⟨rfl, rfl, by decide⟩

/-- C9: if the lazily captured text inside the first parentheses of the
signature strips to nothing (empty or whitespace-only), the parameter
extraction returns the empty list rather than a list holding an empty
token — the `if param_str.strip():` guard of `extract_parameters`. -/
theorem c9_blank_params_empty_list (s : String) (p : List Char)
    (h1 : paramSearch s.toList = some p) (h2 : stripL p = []) :
    ContentExtractor.extract_parameters s = [] := by
  unfold ContentExtractor.extract_parameters ContentExtractor.extract_parametersL
  rw [h1]
  simp [h2]

/-- C9 witness: `"foo(  )"` has a whitespace-only parameter substring
and extraction yields `[]`. -/
theorem c9_blank_params_witness :
    paramSearch "foo(  )".toList = some [' ', ' '] ∧
      ContentExtractor.extract_parameters "foo(  )" = [] :=
  ⟨by decide, c9_blank_params_empty_list "foo(  )" [' ', ' '] (by decide) (by decide)⟩

/-- C10: every class entity's name is the captured `[A-Z][a-zA-Z]+`
identifier followed by the literal suffix `" Class"`, every
DML-operation entity's name is the captured identifier followed by
`" Statement"`, and every namespace entity carries the bare captured
identifier (an all-alphabetic string — in particular no suffix, which
would contain a space). -/
theorem c10_entity_name_suffixes (text : String) :
    (∀ ci ∈ ContentExtractor.extract_classes text,
        ∃ id, isCapIdent id = true ∧ ClassInfo.name ci = String.mk id ++ " Class") ∧
      (∀ op ∈ ContentExtractor.extract_dml_operations text,
        ∃ id, isCapIdent id = true ∧ DmlOperation.name op = String.mk id ++ " Statement") ∧
      (∀ ns ∈ ContentExtractor.extract_namespaces text,
        ∃ id, isCapIdent id = true ∧ NamespaceInfo.name ns = String.mk id) := by
  refine ⟨?_, ?_, ?_⟩
  · intro ci hci
    unfold ContentExtractor.extract_classes ContentExtractor.extract_classesL at hci
    obtain ⟨b, hb, rfl⟩ := List.mem_map.1 hci
    exact ⟨b.2.1, sectionBoundaries_cap _ _ b hb, rfl⟩
  · intro op hop
    unfold ContentExtractor.extract_dml_operations ContentExtractor.extract_dml_operationsL at hop
    obtain ⟨b, hb, rfl⟩ := List.mem_map.1 hop
    exact ⟨b.2.1, sectionBoundaries_cap _ _ b hb, rfl⟩
  · intro ns hns
    unfold ContentExtractor.extract_namespaces ContentExtractor.extract_namespacesL at hns
    obtain ⟨b, hb, rfl⟩ := List.mem_map.1 hns
    exact ⟨b.2.1, sectionBoundaries_cap _ _ b hb, rfl⟩

/-- C10 witness: concrete one-heading texts for each category. -/
theorem c10_entity_name_witness :
    (∃ id, isCapIdent id = true ∧
        ClassInfo.name { name := "Ab Class", description := "", methods := [] } =
          String.mk id ++ " Class") ∧
      (∃ id, isCapIdent id = true ∧
        DmlOperation.name
            { name := "Cd Statement", description := "", syntaxLines := [], exampleText := "" } =
          String.mk id ++ " Statement") ∧
      (∃ id, isCapIdent id = true ∧
        NamespaceInfo.name
            { name := "Ef", description := "", subsections := [], pageRange := ⟨0, 0⟩ } =
          String.mk id) :=
  ⟨(c10_entity_name_suffixes "Ab Class\n").1 _ (by decide),
   (c10_entity_name_suffixes "Cd Statement\n").2.1 _ (by decide),
   (c10_entity_name_suffixes "Ef Namespace\n").2.2 _ (by decide)⟩

end S2P
